import Mathlib

/-!
Shallow embedding of the document-chunking core of the enterprise-rag-system
repository (src/src/document_processing/chunkers.py) and proofs of the
specification claims about it.

The repository's own code (SmartChunker) delegates the recursive splitting,
the overlap windowing and the construction-time validation to an external
text-splitter library, and token counting to an external tokenizer library;
neither library's code is under src/.  Those parts are modelled from the
spec (sections 4.2, 4.3, 6 and 7) here, each marked `Modelled from the spec`.
Everything else (chunk assembly, metadata merging, statistics, the public
entry points and the constructor surface) is translated directly from
chunkers.py.

Texts are lists of characters; the tokenizer is an explicit parameter
`tok : Text → Nat`, as the spec's tokenizer contract is exactly a pure
function from text to a token count.
-/

namespace RagChunker

/-- A text is modelled as its list of characters. -/
abbrev Text := List Char

/-- Metadata values are strings, numbers or booleans (spec section 3). -/
inductive MetaVal where
  | str (s : String)
  | num (n : Int)
  | boolean (b : Bool)
deriving DecidableEq

/-- A metadata mapping, modelled by its lookup function (Python dict). -/
abbrev Metadata := String → Option MetaVal

/-- Whitespace characters recognised by Python's `str.strip`, used by the
`not text or not text.strip()` guard in `chunk_document` (ASCII range). -/
def isPyWS (c : Char) : Bool :=
  c = ' ' || c = '\t' || c = '\n' || c = '\r' || c = '\x0b' || c = '\x0c'

/-- Sum of token counts of a list of segments. -/
def sumTok (tok : Text → Nat) : List Text → Nat
  | [] => 0
  | t :: ts => tok t + sumTok tok ts

/-- Concatenation of a list of lists (used both for joining segments into a
text and for flattening runs of segments). -/
def joinAll {α : Type} : List (List α) → List α
  | [] => []
  | t :: ts => t ++ joinAll ts

/-- Does `sep` match the front of `t`? -/
def leadMatch : Text → Text → Bool
  | [], _ => true
  | _ :: _, [] => false
  | a :: as, b :: bs => a = b && leadMatch as bs

/-- Does `sep` occur somewhere in `t`?  The empty separator always occurs,
matching the text splitter's treatment of the `""` character-level separator. -/
def containsSep (sep : Text) : Text → Bool
  | [] => leadMatch sep []
  | c :: rest => leadMatch sep (c :: rest) || containsSep sep rest

/-- Modelled from the spec (section 4.2): split a text on every occurrence of a
non-empty separator, "retaining the separator attached to the end of each
preceding segment (boundary preservation)".  Empty segments are not produced.
The fuel argument (always called with the text's length) only drives the
recursion; each step consumes at least one character. -/
def splitGo (sep : Text) : Nat → Text → Text → List Text
  | 0, acc, t => if acc ++ t = [] then [] else [acc ++ t]
  | _fuel + 1, acc, [] => if acc = [] then [] else [acc]
  | fuel + 1, acc, c :: rest =>
    if leadMatch sep (c :: rest) then
      (acc ++ sep) :: splitGo sep fuel [] (List.drop sep.length (c :: rest))
    else
      splitGo sep fuel (acc ++ [c]) rest

/-- Modelled from the spec (section 4.2): one level of the separator
hierarchy.  The empty separator splits into single characters (the
character-level last resort of the hierarchy). -/
def splitKeepSep (sep text : Text) : List Text :=
  if sep = [] then text.map (fun c => [c])
  else splitGo sep text.length [] text

/-- Modelled from the spec (section 4.2): the recursive splitter.  It divides
the text at the coarsest separator still present, keeps every within-budget
segment as a leaf, recurses into oversized segments with the finer levels,
and, when no finer separator remains, emits the segment whole (the oversized
leaf case).  The repository delegates this to an external text-splitter
library whose code is not under src/. -/
def recursiveSplit (tok : Text → Nat) (size : Nat) : List Text → Text → List Text
  | [], text => [text]
  | sep :: rest, text =>
    if containsSep sep text then
      (splitKeepSep sep text).flatMap (fun seg =>
        if tok seg ≤ size then [seg] else recursiveSplit tok size rest seg)
    else
      recursiveSplit tok size rest text

/-- Modelled from the spec (sections 4.3 and 9): when a chunk is closed, the
windower keeps a trailing run of whole leaves as the overlap carried into the
next chunk, dropping leaves from the front while the running total exceeds
`chunk_overlap` tokens, or while the next leaf (of `dTok` tokens) would still
not fit in the budget. -/
def popLeaves (tok : Text → Nat) (size ov dTok : Nat) : List Text → List Text
  | [] => []
  | l :: ls =>
    if ov < sumTok tok (l :: ls) ∨
        (size < sumTok tok (l :: ls) + dTok ∧ 0 < sumTok tok (l :: ls)) then
      popLeaves tok size ov dTok ls
    else
      l :: ls

/-- Modelled from the spec (section 4.3): the overlap windower's main loop.
A chunk in progress is a pair `(keep, new)`: the leaves carried over from the
previous chunk and the leaves newly accumulated.  Leaves are appended while
the running token count stays within `chunk_size`; otherwise the current
chunk is emitted and a new one is started from the retained overlap. -/
def windowAux (tok : Text → Nat) (size ov : Nat) :
    List Text → List Text → List Text → List (List Text × List Text)
  | keep, new, [] => [(keep, new)]
  | keep, new, d :: ds =>
    if sumTok tok (keep ++ new) + tok d ≤ size then
      windowAux tok size ov keep (new ++ [d]) ds
    else
      (keep, new) :: windowAux tok size ov (popLeaves tok size ov (tok d) (keep ++ new)) [d] ds

/-- Modelled from the spec (section 4.3): the windower's chunks, each as a
pair of carried-overlap leaves and new leaves.  An empty leaf sequence yields
no chunks. -/
def windowPairs (tok : Text → Nat) (size ov : Nat) : List Text → List (List Text × List Text)
  | [] => []
  | d :: ds => windowAux tok size ov [] [d] ds

/-- Modelled from the spec (section 4.3): the final chunk texts, the
concatenation of carried and new content of each windowed chunk. -/
def window (tok : Text → Nat) (size ov : Nat) (leaves : List Text) : List Text :=
  (windowPairs tok size ov leaves).map (fun p => joinAll (p.1 ++ p.2))

/-- One produced chunk record (chunkers.py, chunk_document's chunk_obj). -/
structure Chunk where
  text : Text
  chunk_id : Nat
  token_count : Nat
  char_count : Nat
  metadata : Metadata

/-- The chunker configuration held by a SmartChunker: token budget, overlap
and separator hierarchy. -/
structure ChunkerCfg where
  chunk_size : Nat
  chunk_overlap : Nat
  separators : List Text

/-- The metadata attached to each chunk (chunkers.py lines 119-123): a shallow
merge of the caller's metadata with `chunk_index` and `total_chunks`, the
latter two overwriting any same-named caller keys. -/
def mergeMeta (md : Metadata) (i n : Nat) : Metadata :=
  fun k =>
    if k = "chunk_index" then some (MetaVal.num i)
    else if k = "total_chunks" then some (MetaVal.num n)
    else md k

/-- Python's `enumerate`, used by chunk_document's assembly loop. -/
def numbered (i : Nat) : List Text → List (Nat × Text)
  | [] => []
  | t :: ts => (i, t) :: numbered (i + 1) ts

/-- chunkers.py, SmartChunker.chunk_document: guard empty or whitespace-only
input, split the text, then attach ids, counts and merged metadata to each
chunk text in order. -/
def chunk_document (tok : Text → Nat) (cfg : ChunkerCfg) (text : Text) (md : Metadata) :
    List Chunk :=
  if text.all isPyWS then []
  else
    let chunks := window tok cfg.chunk_size cfg.chunk_overlap
      (recursiveSplit tok cfg.chunk_size cfg.separators text)
    (numbered 0 chunks).map (fun p =>
      { text := p.2
        chunk_id := p.1
        token_count := tok p.2
        char_count := p.2.length
        metadata := mergeMeta md p.1 chunks.length })

/-- chunkers.py, SmartChunker.chunk_with_headers: header detection is not
implemented; the method delegates to standard chunking unchanged. -/
def chunk_with_headers (tok : Text → Nat) (cfg : ChunkerCfg) (text : Text) (md : Metadata) :
    List Chunk :=
  chunk_document tok cfg text md

/-- The statistics record returned by get_chunk_stats on a non-empty list. -/
structure ChunkStats where
  total_chunks : Nat
  total_tokens : Nat
  avg_tokens : ℚ
  min_tokens : Nat
  max_tokens : Nat
  total_chars : Nat

/-- chunkers.py, SmartChunker.get_chunk_stats: aggregate token and character
counts; an empty chunk list yields the empty result (Python's `{}`), not an
error. -/
def get_chunk_stats (chunks : List Chunk) : Option ChunkStats :=
  match chunks with
  | [] => none
  | c :: cs =>
    some
      { total_chunks := (c :: cs).length
        total_tokens := ((c :: cs).map Chunk.token_count).sum
        avg_tokens := (((c :: cs).map Chunk.token_count).sum : ℚ) / ((c :: cs).length : ℚ)
        min_tokens := cs.foldl (fun a b => Nat.min a b.token_count) c.token_count
        max_tokens := cs.foldl (fun a b => Nat.max a b.token_count) c.token_count
        total_chars := ((c :: cs).map Chunk.char_count).sum }

/-- The default separator hierarchy hardcoded in SmartChunker.__init__
(chunkers.py lines 57-68). -/
def defaultSeparators : List Text :=
  [['\n', '\n', '\n'], ['\n', '\n'], ['\n'],
   ['.', ' '], ['!', ' '], ['?', ' '], [';', ' '], [',', ' '],
   [' '], []]

/-- The arguments accepted by SmartChunker.__init__ (chunkers.py lines 27-32):
chunk_size, chunk_overlap and model_name only. -/
structure SmartChunkerArgs where
  chunk_size : Int := 1000
  chunk_overlap : Int := 200
  model_name : String := "gpt-4"

/-- The state a constructed SmartChunker holds for splitting. -/
structure SmartChunkerState where
  chunk_size : Int
  chunk_overlap : Int
  separators : List Text

/-- chunkers.py, SmartChunker.__init__: stores chunk_size and chunk_overlap
and configures the splitter with the hardcoded separator hierarchy; the
constructor exposes no separators parameter. -/
def mkSmartChunker (a : SmartChunkerArgs) : SmartChunkerState :=
  { chunk_size := a.chunk_size
    chunk_overlap := a.chunk_overlap
    separators := defaultSeparators }

/-- The construction-time configuration errors named by the spec (section 7). -/
inductive ConfigError where
  | nonPositiveSize
  | overlapNotLessThanSize
deriving DecidableEq

/-- Modelled from the spec (sections 6 and 7): construction-time validation of
the chunker configuration (`chunk_size ≥ 1` and `0 ≤ chunk_overlap <
chunk_size`, violations fatal at construction).  The repository delegates
construction checks to the external text-splitter library, whose code is not
under src/. -/
def validateChunkerConfig (chunk_size chunk_overlap : Int) : Except ConfigError Unit :=
  if chunk_size < 1 then Except.error ConfigError.nonPositiveSize
  else if chunk_overlap < 0 ∨ chunk_size ≤ chunk_overlap then
    Except.error ConfigError.overlapNotLessThanSize
  else Except.ok ()

/-- Modelled from the spec (section 4.1): the external tokenizer library's
model registry, mapping known model identifiers to encodings; the library's
code is not under src/. -/
def encoding_for_model (known : List (String × String)) (name : String) : Option String :=
  known.lookup name

/-- chunkers.py lines 44-50: try the model-specific encoding; on a lookup
failure, record a warning and fall back to the cl100k_base encoding. -/
def initEncoding (known : List (String × String)) (name : String) : String × Bool :=
  match encoding_for_model known name with
  | some e => (e, false)
  | none => ("cl100k_base", true)

/-- Does `c2` start with a run of at least `n` tokens taken from the tail of
`c1`?  A shared boundary is a prefix of the later chunk that is also a suffix
of the earlier one; the candidates are exactly the prefixes of `c2`. -/
def sharesTailTokens (tok : Text → Nat) (c1 c2 : Text) (n : Nat) : Bool :=
  (List.range (c2.length + 1)).any (fun k =>
    leadMatch (c2.take k).reverse c1.reverse && decide (n ≤ tok (c2.take k)))

/-! Basic lemmas about the helper functions. -/

theorem joinAll_nil {α : Type} : joinAll ([] : List (List α)) = [] := rfl

theorem joinAll_cons {α : Type} (t : List α) (ts : List (List α)) :
    joinAll (t :: ts) = t ++ joinAll ts := rfl

theorem joinAll_append {α : Type} (a b : List (List α)) :
    joinAll (a ++ b) = joinAll a ++ joinAll b := by
  induction a with
  | nil => simp [joinAll]
  | cons t ts ih => simp [joinAll, ih]

theorem sumTok_nil (tok : Text → Nat) : sumTok tok [] = 0 := rfl

theorem sumTok_cons (tok : Text → Nat) (t : Text) (ts : List Text) :
    sumTok tok (t :: ts) = tok t + sumTok tok ts := rfl

theorem sumTok_append (tok : Text → Nat) (a b : List Text) :
    sumTok tok (a ++ b) = sumTok tok a + sumTok tok b := by
  induction a with
  | nil => simp [sumTok]
  | cons t ts ih => simp [sumTok, ih, Nat.add_assoc]

theorem tok_joinAll_le (tok : Text → Nat) (hnil : tok [] = 0)
    (hsub : ∀ a b : Text, tok (a ++ b) ≤ tok a + tok b) (ls : List Text) :
    tok (joinAll ls) ≤ sumTok tok ls := by
  induction ls with
  | nil => simp [joinAll, sumTok, hnil]
  | cons t ts ih =>
    calc tok (joinAll (t :: ts)) = tok (t ++ joinAll ts) := rfl
      _ ≤ tok t + tok (joinAll ts) := hsub _ _
      _ ≤ tok t + sumTok tok ts := Nat.add_le_add_left ih _
      _ = sumTok tok (t :: ts) := rfl

theorem leadMatch_append_drop {sep t : Text} (h : leadMatch sep t = true) :
    sep ++ List.drop sep.length t = t := by
  induction sep generalizing t with
  | nil => simp
  | cons a as ih =>
    cases t with
    | nil => simp [leadMatch] at h
    | cons b bs =>
      simp only [leadMatch, Bool.and_eq_true, decide_eq_true_eq] at h
      simp [h.1, ih h.2]

/-! Lemmas about the recursive splitter: it preserves the text content and
produces only non-empty segments. -/

theorem splitGo_joinAll (sep : Text) (fuel : Nat) (acc t : Text) :
    joinAll (splitGo sep fuel acc t) = acc ++ t := by
  induction fuel generalizing acc t with
  | zero =>
    by_cases h : acc ++ t = []
    · simp [splitGo, h, joinAll]
    · simp [splitGo, h, joinAll]
  | succ fuel ih =>
    cases t with
    | nil =>
      by_cases h : acc = []
      · simp [splitGo, h, joinAll]
      · simp [splitGo, h, joinAll]
    | cons c rest =>
      by_cases h : leadMatch sep (c :: rest) = true
      · simp only [splitGo, h, if_pos, joinAll_cons, ih]
        rw [List.nil_append, List.append_assoc, leadMatch_append_drop h]
      · simp only [splitGo, h, Bool.false_eq_true, if_false]
        rw [ih]
        simp

theorem splitGo_ne_nil (sep : Text) (hsep : sep ≠ []) (fuel : Nat) (acc t : Text) :
    ∀ s ∈ splitGo sep fuel acc t, s ≠ [] := by
  induction fuel generalizing acc t with
  | zero =>
    intro s hs
    by_cases h : acc ++ t = []
    · simp [splitGo, h] at hs
    · simp [splitGo, h] at hs
      simp [hs, h]
  | succ fuel ih =>
    intro s hs
    cases t with
    | nil =>
      by_cases h : acc = []
      · simp [splitGo, h] at hs
      · simp [splitGo, h] at hs
        simp [hs, h]
    | cons c rest =>
      by_cases h : leadMatch sep (c :: rest) = true
      · simp only [splitGo, h, if_pos, List.mem_cons] at hs
        rcases hs with hs | hs
        · simp [hs, hsep]
        · exact ih _ _ _ hs
      · simp only [splitGo, h, Bool.false_eq_true, if_neg] at hs
        exact ih _ _ _ hs

theorem splitKeepSep_joinAll (sep t : Text) : joinAll (splitKeepSep sep t) = t := by
  by_cases h : sep = []
  · simp only [splitKeepSep, h, if_pos]
    induction t with
    | nil => rfl
    | cons c cs ih => simpa [joinAll] using ih
  · simp only [splitKeepSep, h, if_neg]
    simpa using splitGo_joinAll sep t.length [] t

theorem splitKeepSep_ne_nil (sep t : Text) : ∀ s ∈ splitKeepSep sep t, s ≠ [] := by
  by_cases h : sep = []
  · simp only [splitKeepSep, h, if_pos]
    intro s hs
    simp only [List.mem_map] at hs
    rcases hs with ⟨c, _, rfl⟩
    simp
  · simp only [splitKeepSep, h, if_neg]
    exact splitGo_ne_nil sep h t.length [] t

theorem joinAll_flatMap (f : Text → List Text) (ls : List Text)
    (h : ∀ s ∈ ls, joinAll (f s) = s) :
    joinAll (ls.flatMap f) = joinAll ls := by
  induction ls with
  | nil => simp
  | cons t ts ih =>
    simp only [List.flatMap_cons, joinAll_append, joinAll_cons]
    rw [h t (by simp), ih (fun s hs => h s (by simp [hs]))]

theorem recursiveSplit_joinAll (tok : Text → Nat) (size : Nat) (seps : List Text) (t : Text) :
    joinAll (recursiveSplit tok size seps t) = t := by
  induction seps generalizing t with
  | nil => simp [recursiveSplit, joinAll]
  | cons sep rest ih =>
    by_cases h : containsSep sep t = true
    · simp only [recursiveSplit, h, if_pos]
      rw [joinAll_flatMap, splitKeepSep_joinAll]
      intro s _
      by_cases hle : tok s ≤ size
      · simp [hle, joinAll]
      · simp [hle, ih]
    · simp only [recursiveSplit, h, Bool.false_eq_true, if_neg]
      exact ih t

theorem recursiveSplit_ne_nil (tok : Text → Nat) (size : Nat) (seps : List Text) (t : Text)
    (ht : t ≠ []) : ∀ l ∈ recursiveSplit tok size seps t, l ≠ [] := by
  induction seps generalizing t with
  | nil =>
    intro l hl
    simp only [recursiveSplit, List.mem_singleton] at hl
    simp [hl, ht]
  | cons sep rest ih =>
    intro l hl
    by_cases h : containsSep sep t = true
    · simp only [recursiveSplit, h, if_pos, List.mem_flatMap] at hl
      rcases hl with ⟨seg, hseg, hl⟩
      have hsegne : seg ≠ [] := splitKeepSep_ne_nil sep t seg hseg
      by_cases hle : tok seg ≤ size
      · simp only [hle, if_pos, List.mem_singleton] at hl
        simp [hl, hsegne]
      · simp only [hle, if_neg] at hl
        exact ih seg hsegne l hl
    · simp only [recursiveSplit, h, Bool.false_eq_true, if_neg] at hl
      exact ih t ht l hl

/-! Lemmas about the overlap retention (popLeaves). -/

theorem popLeaves_suffix (tok : Text → Nat) (size ov dTok : Nat) (ls : List Text) :
    ∃ pre, ls = pre ++ popLeaves tok size ov dTok ls := by
  induction ls with
  | nil => exact ⟨[], rfl⟩
  | cons l ls ih =>
    by_cases h : ov < sumTok tok (l :: ls) ∨
        (size < sumTok tok (l :: ls) + dTok ∧ 0 < sumTok tok (l :: ls))
    · rcases ih with ⟨pre, hpre⟩
      exact ⟨l :: pre, by simp [popLeaves, h, ← hpre]⟩
    · exact ⟨[], by simp [popLeaves, h]⟩

theorem popLeaves_subset (tok : Text → Nat) (size ov dTok : Nat) (ls : List Text) :
    ∀ x ∈ popLeaves tok size ov dTok ls, x ∈ ls := by
  rcases popLeaves_suffix tok size ov dTok ls with ⟨pre, hpre⟩
  intro x hx
  rw [hpre]
  exact List.mem_append_right pre hx

theorem popLeaves_sum_le (tok : Text → Nat) (size ov dTok : Nat) (ls : List Text) :
    sumTok tok (popLeaves tok size ov dTok ls) ≤ ov := by
  induction ls with
  | nil => simp [popLeaves, sumTok]
  | cons l ls ih =>
    by_cases h : ov < sumTok tok (l :: ls) ∨
        (size < sumTok tok (l :: ls) + dTok ∧ 0 < sumTok tok (l :: ls))
    · simpa [popLeaves, h] using ih
    · simp only [popLeaves, h, if_false]
      omega

theorem popLeaves_fit (tok : Text → Nat) (size ov dTok : Nat) (ls : List Text) :
    popLeaves tok size ov dTok ls = [] ∨
      sumTok tok (popLeaves tok size ov dTok ls) + dTok ≤ size ∨
      sumTok tok (popLeaves tok size ov dTok ls) = 0 := by
  induction ls with
  | nil => simp [popLeaves]
  | cons l ls ih =>
    by_cases h : ov < sumTok tok (l :: ls) ∨
        (size < sumTok tok (l :: ls) + dTok ∧ 0 < sumTok tok (l :: ls))
    · simpa [popLeaves, h] using ih
    · simp only [popLeaves, h, if_false]
      omega

/-! The windower's invariant: every emitted chunk fits the budget unless it is
a single oversized leaf. -/

/-- A windowed chunk (carried leaves, new leaves) either fits the token budget
or is exactly one oversized leaf of the splitter output `L`. -/
def GoodPair (tok : Text → Nat) (size : Nat) (L : List Text) (p : List Text × List Text) : Prop :=
  sumTok tok (p.1 ++ p.2) ≤ size ∨ (p.1 = [] ∧ ∃ l, p.2 = [l] ∧ l ∈ L ∧ size < tok l)

theorem windowAux_good (tok : Text → Nat) (size ov : Nat) (L : List Text)
    (hpos : ∀ s : Text, s ≠ [] → 1 ≤ tok s) (hL : ∀ s ∈ L, s ≠ []) :
    ∀ (ls keep new : List Text), GoodPair tok size L (keep, new) →
      (∀ s ∈ keep ++ new, s ∈ L) → (∀ d ∈ ls, d ∈ L) →
      ∀ p ∈ windowAux tok size ov keep new ls, GoodPair tok size L p := by
  intro ls
  induction ls with
  | nil =>
    intro keep new hgood _ _ p hp
    simp only [windowAux, List.mem_singleton] at hp
    simpa [hp] using hgood
  | cons d ds ih =>
    intro keep new hgood hmem hls p hp
    have hdL : d ∈ L := hls d (by simp)
    by_cases hfit : sumTok tok (keep ++ new) + tok d ≤ size
    · simp only [windowAux, hfit, if_pos] at hp
      refine ih keep (new ++ [d]) ?_ ?_ (fun x hx => hls x (by simp [hx])) p hp
      · left
        show sumTok tok (keep ++ (new ++ [d])) ≤ size
        rw [← List.append_assoc, sumTok_append, sumTok_cons, sumTok_nil]
        omega
      · intro s hs
        rcases List.mem_append.mp hs with hs | hs
        · exact hmem s (List.mem_append_left _ hs)
        · rcases List.mem_append.mp hs with hs | hs
          · exact hmem s (List.mem_append_right _ hs)
          · simp only [List.mem_singleton] at hs
            simpa [hs] using hdL
    · simp only [windowAux, hfit, if_false, List.mem_cons] at hp
      rcases hp with hp | hp
      · simpa [hp] using hgood
      refine ih (popLeaves tok size ov (tok d) (keep ++ new)) [d] ?_ ?_
        (fun x hx => hls x (by simp [hx])) p hp
      · rcases popLeaves_fit tok size ov (tok d) (keep ++ new) with hnil | hle | hzero
        · rw [hnil]
          by_cases hd : tok d ≤ size
          · left
            show sumTok tok ([] ++ [d]) ≤ size
            simp [sumTok, hd]
          · right
            exact ⟨rfl, d, rfl, hdL, by omega⟩
        · left
          show sumTok tok (popLeaves tok size ov (tok d) (keep ++ new) ++ [d]) ≤ size
          rw [sumTok_append, sumTok_cons, sumTok_nil]
          omega
        · cases hk : popLeaves tok size ov (tok d) (keep ++ new) with
          | nil =>
            by_cases hd : tok d ≤ size
            · left
              show sumTok tok ([] ++ [d]) ≤ size
              simp [sumTok, hd]
            · right
              exact ⟨rfl, d, rfl, hdL, by omega⟩
          | cons x xs =>
            exfalso
            have hxL : x ∈ L :=
              hmem x (popLeaves_subset tok size ov (tok d) (keep ++ new) x (by simp [hk]))
            have hx1 : 1 ≤ tok x := hpos x (hL x hxL)
            rw [hk, sumTok_cons] at hzero
            omega
      · intro s hs
        rcases List.mem_append.mp hs with hs | hs
        · exact hmem s (popLeaves_subset tok size ov (tok d) (keep ++ new) s hs)
        · simp only [List.mem_singleton] at hs
          simpa [hs] using hdL

theorem window_good (tok : Text → Nat) (size ov : Nat) (L : List Text)
    (hnil : tok [] = 0) (hsub : ∀ a b : Text, tok (a ++ b) ≤ tok a + tok b)
    (hpos : ∀ s : Text, s ≠ [] → 1 ≤ tok s) (hL : ∀ s ∈ L, s ≠ []) :
    ∀ t ∈ window tok size ov L, tok t ≤ size ∨ ∃ l ∈ L, t = l ∧ size < tok l := by
  intro t ht
  cases L with
  | nil => simp [window, windowPairs] at ht
  | cons d ds =>
    simp only [window, windowPairs, List.mem_map] at ht
    rcases ht with ⟨p, hp, rfl⟩
    have hgood : GoodPair tok size (d :: ds) p := by
      refine windowAux_good tok size ov (d :: ds) hpos hL ds [] [d] ?_ ?_ (fun x hx => by simp [hx]) p hp
      · by_cases hd : tok d ≤ size
        · left
          simp [sumTok, hd]
        · right
          exact ⟨rfl, d, rfl, by simp, by omega⟩
      · intro s hs
        simp only [List.nil_append, List.mem_singleton] at hs
        simp [hs]
    rcases hgood with hle | ⟨h1, l, h2, hlL, hlt⟩
    · left
      exact le_trans (tok_joinAll_le tok hnil hsub (p.1 ++ p.2)) hle
    · right
      exact ⟨l, hlL, by simp [h1, h2, joinAll], hlt⟩

/-! Content preservation by the windower: the new (non-carried) parts of the
chunks concatenate back to the input leaves. -/

theorem windowAux_snd_joinAll (tok : Text → Nat) (size ov : Nat) :
    ∀ (ls keep new : List Text),
      joinAll ((windowAux tok size ov keep new ls).map (fun p => p.2)) = new ++ ls := by
  intro ls
  induction ls with
  | nil => intro keep new; simp [windowAux, joinAll]
  | cons d ds ih =>
    intro keep new
    by_cases hfit : sumTok tok (keep ++ new) + tok d ≤ size
    · simp only [windowAux, hfit, if_pos]
      rw [ih]
      simp
    · simp only [windowAux, hfit, if_false, List.map_cons, joinAll_cons]
      rw [ih]
      simp

theorem windowPairs_snd_joinAll (tok : Text → Nat) (size ov : Nat) (ls : List Text) :
    joinAll ((windowPairs tok size ov ls).map (fun p => p.2)) = ls := by
  cases ls with
  | nil => simp [windowPairs, joinAll]
  | cons d ds => simpa using windowAux_snd_joinAll tok size ov ds [] [d]

/-! Adjacency structure of the windower's output: every chunk after the first
starts from the overlap retained out of the previous chunk. -/

theorem windowAux_head? (tok : Text → Nat) (size ov : Nat) :
    ∀ (ls keep new : List Text),
      ∃ ext, (windowAux tok size ov keep new ls).head? = some (keep, new ++ ext) := by
  intro ls
  induction ls with
  | nil => intro keep new; exact ⟨[], by simp [windowAux]⟩
  | cons d ds ih =>
    intro keep new
    by_cases hfit : sumTok tok (keep ++ new) + tok d ≤ size
    · rcases ih keep (new ++ [d]) with ⟨ext, hext⟩
      refine ⟨[d] ++ ext, ?_⟩
      simp only [windowAux, hfit, if_pos]
      rw [hext]
      simp
    · exact ⟨[], by simp [windowAux, hfit]⟩

theorem windowAux_chain (tok : Text → Nat) (size ov : Nat) :
    ∀ (ls keep new : List Text),
      List.Chain' (fun p q => ∃ d rest, q.2 = d :: rest ∧
          q.1 = popLeaves tok size ov (tok d) (p.1 ++ p.2))
        (windowAux tok size ov keep new ls) := by
  intro ls
  induction ls with
  | nil => intro keep new; simp [windowAux]
  | cons d ds ih =>
    intro keep new
    by_cases hfit : sumTok tok (keep ++ new) + tok d ≤ size
    · simpa only [windowAux, hfit, if_pos] using ih keep (new ++ [d])
    · simp only [windowAux, hfit, if_false]
      rw [List.chain'_cons']
      constructor
      · intro q hq
        rcases windowAux_head? tok size ov ds (popLeaves tok size ov (tok d) (keep ++ new)) [d]
          with ⟨ext, hext⟩
        rw [hext] at hq
        simp only [Option.mem_some_iff] at hq
        exact ⟨d, ext, by simp [← hq], by simp [← hq]⟩
      · exact ih _ [d]

/-! Lemmas about the enumeration used by the chunk assembler. -/

theorem numbered_length (i : Nat) (l : List Text) : (numbered i l).length = l.length := by
  induction l generalizing i with
  | nil => rfl
  | cons t ts ih => simp [numbered, ih]

theorem numbered_get (i : Nat) (l : List Text) (k : Nat) (h : k < (numbered i l).length)
    (h' : k < l.length) :
    (numbered i l).get ⟨k, h⟩ = (i + k, l.get ⟨k, h'⟩) := by
  induction l generalizing i k with
  | nil => simp at h'
  | cons t ts ih =>
    cases k with
    | zero => simp [numbered]
    | succ k =>
      have hk : k < (numbered (i + 1) ts).length := by
        simpa [numbered, Nat.succ_lt_succ_iff] using h
      have hk' : k < ts.length := by simpa [Nat.succ_lt_succ_iff] using h'
      calc (numbered i (t :: ts)).get ⟨k + 1, h⟩
          = (numbered (i + 1) ts).get ⟨k, hk⟩ := rfl
        _ = (i + 1 + k, ts.get ⟨k, hk'⟩) := ih (i + 1) k hk hk'
        _ = (i + (k + 1), (t :: ts).get ⟨k + 1, h'⟩) := by
            simp [Nat.add_comm, Nat.add_assoc, Nat.add_left_comm]

theorem numbered_map_snd (i : Nat) (l : List Text) :
    (numbered i l).map (fun p => p.2) = l := by
  induction l generalizing i with
  | nil => rfl
  | cons t ts ih => simp [numbered, ih]

/-- On non-whitespace input, the texts of the produced chunks are exactly the
windowed chunks, each the concatenation of its carried and new leaves. -/
theorem chunk_document_texts (tok : Text → Nat) (cfg : ChunkerCfg) (text : Text) (md : Metadata)
    (hws : text.all isPyWS = false) :
    (chunk_document tok cfg text md).map Chunk.text =
      (windowPairs tok cfg.chunk_size cfg.chunk_overlap
        (recursiveSplit tok cfg.chunk_size cfg.separators text)).map
        (fun p => joinAll (p.1 ++ p.2)) := by
  simp only [chunk_document, hws, Bool.false_eq_true, if_false, List.map_map]
  have : (Chunk.text ∘ fun p : Nat × Text =>
      ({ text := p.2, chunk_id := p.1, token_count := tok p.2, char_count := p.2.length,
         metadata := mergeMeta md p.1 (window tok cfg.chunk_size cfg.chunk_overlap
           (recursiveSplit tok cfg.chunk_size cfg.separators text)).length } : Chunk))
      = fun p : Nat × Text => p.2 := rfl
  rw [this, numbered_map_snd]
  rfl

/-! Helper facts about Python's min and max over a non-empty list, as folds. -/

theorem foldl_min_spec (x : Nat) (l : List Nat) :
    l.foldl Nat.min x ∈ x :: l ∧ ∀ y ∈ x :: l, l.foldl Nat.min x ≤ y := by
  induction l generalizing x with
  | nil => exact ⟨by simp, by simp⟩
  | cons b l ih =>
    rcases ih (Nat.min x b) with ⟨hmem, hle⟩
    constructor
    · rcases List.mem_cons.mp hmem with hm | hm
      · have hchoice : Nat.min x b = x ∨ Nat.min x b = b := by
          by_cases hxb : x ≤ b
          · exact Or.inl (Nat.min_eq_left hxb)
          · exact Or.inr (Nat.min_eq_right (Nat.le_of_not_le hxb))
        rcases hchoice with hc | hc
        · exact List.mem_cons.mpr (Or.inl (by rw [List.foldl_cons, hm, hc]))
        · refine List.mem_cons.mpr (Or.inr (List.mem_cons.mpr (Or.inl ?_)))
          rw [List.foldl_cons, hm, hc]
      · exact List.mem_cons.mpr (Or.inr (List.mem_cons.mpr (Or.inr (by rw [List.foldl_cons]; exact hm))))
    · intro y hy
      rcases List.mem_cons.mp hy with hy | hy
      · rw [List.foldl_cons, hy]
        exact le_trans (hle _ (by simp)) (Nat.min_le_left x b)
      · rcases List.mem_cons.mp hy with hy | hy
        · rw [List.foldl_cons, hy]
          exact le_trans (hle _ (by simp)) (Nat.min_le_right x b)
        · rw [List.foldl_cons]
          exact hle y (by simp [hy])

theorem foldl_max_spec (x : Nat) (l : List Nat) :
    l.foldl Nat.max x ∈ x :: l ∧ ∀ y ∈ x :: l, y ≤ l.foldl Nat.max x := by
  induction l generalizing x with
  | nil => exact ⟨by simp, by simp⟩
  | cons b l ih =>
    rcases ih (Nat.max x b) with ⟨hmem, hle⟩
    constructor
    · rcases List.mem_cons.mp hmem with hm | hm
      · have hchoice : Nat.max x b = x ∨ Nat.max x b = b := by
          by_cases hxb : x ≤ b
          · exact Or.inr (Nat.max_eq_right hxb)
          · exact Or.inl (Nat.max_eq_left (Nat.le_of_not_le hxb))
        rcases hchoice with hc | hc
        · exact List.mem_cons.mpr (Or.inl (by rw [List.foldl_cons, hm, hc]))
        · refine List.mem_cons.mpr (Or.inr (List.mem_cons.mpr (Or.inl ?_)))
          rw [List.foldl_cons, hm, hc]
      · exact List.mem_cons.mpr (Or.inr (List.mem_cons.mpr (Or.inr (by rw [List.foldl_cons]; exact hm))))
    · intro y hy
      rcases List.mem_cons.mp hy with hy | hy
      · rw [List.foldl_cons, hy]
        exact le_trans (Nat.le_max_left x b) (hle _ (by simp))
      · rcases List.mem_cons.mp hy with hy | hy
        · rw [List.foldl_cons, hy]
          exact le_trans (Nat.le_max_right x b) (hle _ (by simp))
        · rw [List.foldl_cons]
          exact hle y (by simp [hy])

/-! The specification claims. -/

/-- C10: chunk_with_headers returns exactly the same chunk list as
chunk_document on the same arguments; the two public chunking entry points
are extensionally equal. -/
theorem c10_chunk_with_headers_eq :
    ∀ (tok : Text → Nat) (cfg : ChunkerCfg) (text : Text) (md : Metadata),
      chunk_with_headers tok cfg text md = chunk_document tok cfg text md :=
  fun _ _ _ _ => rfl

/-- C6: for every metadata mapping and every input that is empty or consists
only of whitespace, chunk_document returns the empty list; the embedding is a
total function, so no error is raised. -/
theorem c6_whitespace_empty (tok : Text → Nat) (cfg : ChunkerCfg) (text : Text) (md : Metadata)
    (h : text.all isPyWS = true) : chunk_document tok cfg text md = [] := by
  simp [chunk_document, h]

/-- C6 witness: a whitespace-only input yields the empty chunk list. -/
theorem c6_whitespace_empty_witness :
    ([' ', '\n', '\t'] : Text).all isPyWS = true ∧
      chunk_document (fun t => t.length) ⟨1000, 200, defaultSeparators⟩
        [' ', '\n', '\t'] (fun _ => none) = [] :=
  ⟨by decide, c6_whitespace_empty _ _ _ _ (by decide)⟩

/-- C5 counterexample: the SmartChunker constructor accepts only chunk_size,
chunk_overlap and model_name, and every constructed chunker carries the
hardcoded default hierarchy — in particular never the single-separator list
[" "] a caller might want to supply, so the hierarchy is not
caller-overridable. -/
theorem c5_counterexample :
    (∀ a : SmartChunkerArgs, (mkSmartChunker a).separators = defaultSeparators) ∧
      defaultSeparators ≠ [[' ']] :=
  ⟨fun _ => rfl, by decide⟩

/-- C5 amended: the separator hierarchy of a constructed SmartChunker is
always the hardcoded default list; the constructor offers no way to override
it. -/
theorem c5_amended_fixed_separators :
    ∀ a : SmartChunkerArgs, (mkSmartChunker a).separators = defaultSeparators :=
  fun _ => rfl

/-- C4: validation of the chunker configuration fails whenever
chunk_overlap ≥ chunk_size or chunk_size is non-positive, and succeeds
whenever 1 ≤ chunk_size and 0 ≤ chunk_overlap < chunk_size. -/
theorem c4_construction_validation :
    ∀ size ov : Int,
      ((size ≤ 0 ∨ size ≤ ov) → ∃ e, validateChunkerConfig size ov = Except.error e) ∧
      ((1 ≤ size ∧ 0 ≤ ov ∧ ov < size) → validateChunkerConfig size ov = Except.ok ()) := by
  intro size ov
  constructor
  · intro h
    by_cases h1 : size < 1
    · exact ⟨ConfigError.nonPositiveSize, by simp [validateChunkerConfig, h1]⟩
    · have h2 : ov < 0 ∨ size ≤ ov := by omega
      exact ⟨ConfigError.overlapNotLessThanSize, by simp [validateChunkerConfig, h1, h2]⟩
  · rintro ⟨h1, h2, h3⟩
    have hs : ¬ size < 1 := by omega
    have ho : ¬ (ov < 0 ∨ size ≤ ov) := by omega
    simp [validateChunkerConfig, hs, ho]

/-- C4 witness: chunk_size 0 with overlap 0 is rejected; chunk_size 10 with
overlap 2 is accepted. -/
theorem c4_construction_validation_witness :
    ((0 : Int) ≤ 0 ∨ (0 : Int) ≤ (0 : Int)) ∧
      (∃ e, validateChunkerConfig 0 0 = Except.error e) ∧
      ((1 : Int) ≤ 10 ∧ (0 : Int) ≤ 2 ∧ (2 : Int) < 10) ∧
      validateChunkerConfig 10 2 = Except.ok () :=
  ⟨Or.inl le_rfl, (c4_construction_validation 0 0).1 (Or.inl le_rfl),
    ⟨by norm_num, by norm_num, by norm_num⟩,
    (c4_construction_validation 10 2).2 ⟨by norm_num, by norm_num, by norm_num⟩⟩

/-- C8: for every model registry and every model identifier, initialization
is total — a recognized identifier yields its encoding without a warning, and
an unrecognized one falls back to cl100k_base with a warning; token counting
afterwards is a total function of the resulting encoding, so it always
succeeds. -/
theorem c8_tokenizer_fallback :
    ∀ (known : List (String × String)) (name : String),
      (∃ e, encoding_for_model known name = some e ∧ initEncoding known name = (e, false)) ∨
      (encoding_for_model known name = none ∧
        initEncoding known name = ("cl100k_base", true)) := by
  intro known name
  cases h : encoding_for_model known name with
  | some e => exact Or.inl ⟨e, rfl, by simp [initEncoding, h]⟩
  | none => exact Or.inr ⟨rfl, by simp [initEncoding, h]⟩

/-- C9: get_chunk_stats on the empty list is the empty result (no error), and
on a non-empty list its fields are the length, the token-count sum, the exact
rational mean, the minimum and maximum token counts, and the char-count sum. -/
theorem c9_get_chunk_stats :
    get_chunk_stats [] = none ∧
    ∀ chunks : List Chunk, chunks ≠ [] →
      ∃ s, get_chunk_stats chunks = some s ∧
        s.total_chunks = chunks.length ∧
        s.total_tokens = (chunks.map Chunk.token_count).sum ∧
        s.avg_tokens = ((chunks.map Chunk.token_count).sum : ℚ) / (chunks.length : ℚ) ∧
        s.min_tokens ∈ chunks.map Chunk.token_count ∧
        (∀ x ∈ chunks.map Chunk.token_count, s.min_tokens ≤ x) ∧
        s.max_tokens ∈ chunks.map Chunk.token_count ∧
        (∀ x ∈ chunks.map Chunk.token_count, x ≤ s.max_tokens) ∧
        s.total_chars = (chunks.map Chunk.char_count).sum := by
  refine ⟨rfl, ?_⟩
  intro chunks hne
  cases chunks with
  | nil => exact absurd rfl hne
  | cons c cs =>
    refine ⟨_, rfl, rfl, rfl, rfl, ?_, ?_, ?_, ?_, rfl⟩
    · have h := (foldl_min_spec c.token_count (cs.map Chunk.token_count)).1
      rw [List.foldl_map] at h
      simpa using h
    · intro x hx
      have h := (foldl_min_spec c.token_count (cs.map Chunk.token_count)).2 x (by simpa using hx)
      rwa [List.foldl_map] at h
    · have h := (foldl_max_spec c.token_count (cs.map Chunk.token_count)).1
      rw [List.foldl_map] at h
      simpa using h
    · intro x hx
      have h := (foldl_max_spec c.token_count (cs.map Chunk.token_count)).2 x (by simpa using hx)
      rwa [List.foldl_map] at h

/-- C9 witness: the statistics over three chunks with token counts
100, 150 and 120 (total 370, mean 370/3, minimum 100, maximum 150). -/
theorem c9_get_chunk_stats_witness :
    (([⟨['x'], 0, 100, 1, fun _ => none⟩, ⟨['y'], 1, 150, 1, fun _ => none⟩,
        ⟨['z'], 2, 120, 1, fun _ => none⟩] : List Chunk) ≠ []) ∧
    ∃ s, get_chunk_stats
        [⟨['x'], 0, 100, 1, fun _ => none⟩, ⟨['y'], 1, 150, 1, fun _ => none⟩,
          ⟨['z'], 2, 120, 1, fun _ => none⟩] = some s ∧
      s.total_chunks = 3 ∧ s.total_tokens = 370 ∧ s.avg_tokens = (370 : ℚ) / 3 ∧
      s.min_tokens = 100 ∧ s.max_tokens = 150 := by
  have h := c9_get_chunk_stats.2
    [⟨['x'], 0, 100, 1, fun _ => none⟩, ⟨['y'], 1, 150, 1, fun _ => none⟩,
      ⟨['z'], 2, 120, 1, fun _ => none⟩] (List.cons_ne_nil _ _)
  rcases h with ⟨s, hs, h1, h2, h3, h4, h5, h6, h7, _⟩
  refine ⟨List.cons_ne_nil _ _, s, hs, by simpa using h1, by simpa using h2, by simpa using h3,
    ?_, ?_⟩
  · have hle := h5 100 (by decide)
    have hmem : s.min_tokens = 100 ∨ s.min_tokens = 150 ∨ s.min_tokens = 120 := by
      simpa using h4
    omega
  · have hge := h7 150 (by decide)
    have hmem : s.max_tokens = 100 ∨ s.max_tokens = 150 ∨ s.max_tokens = 120 := by
      simpa using h6
    omega

theorem chunk_document_length (tok : Text → Nat) (cfg : ChunkerCfg) (text : Text)
    (md : Metadata) (hws : text.all isPyWS = false) :
    (chunk_document tok cfg text md).length =
      (window tok cfg.chunk_size cfg.chunk_overlap
        (recursiveSplit tok cfg.chunk_size cfg.separators text)).length := by
  simp [chunk_document, hws, numbered_length]

/-- On non-whitespace input, the i-th produced chunk record is the i-th
windowed text together with its id, counts and merged metadata. -/
theorem chunk_document_get_eq (tok : Text → Nat) (cfg : ChunkerCfg) (text : Text)
    (md : Metadata) (hws : text.all isPyWS = false) (i : Nat)
    (h : i < (chunk_document tok cfg text md).length) :
    ∃ hW : i < (window tok cfg.chunk_size cfg.chunk_overlap
        (recursiveSplit tok cfg.chunk_size cfg.separators text)).length,
      (chunk_document tok cfg text md).get ⟨i, h⟩ =
        { text := (window tok cfg.chunk_size cfg.chunk_overlap
            (recursiveSplit tok cfg.chunk_size cfg.separators text)).get ⟨i, hW⟩
          chunk_id := i
          token_count := tok ((window tok cfg.chunk_size cfg.chunk_overlap
            (recursiveSplit tok cfg.chunk_size cfg.separators text)).get ⟨i, hW⟩)
          char_count := ((window tok cfg.chunk_size cfg.chunk_overlap
            (recursiveSplit tok cfg.chunk_size cfg.separators text)).get ⟨i, hW⟩).length
          metadata := mergeMeta md i (window tok cfg.chunk_size cfg.chunk_overlap
            (recursiveSplit tok cfg.chunk_size cfg.separators text)).length } := by
  have hW : i < (window tok cfg.chunk_size cfg.chunk_overlap
      (recursiveSplit tok cfg.chunk_size cfg.separators text)).length := by
    rwa [chunk_document_length tok cfg text md hws] at h
  refine ⟨hW, ?_⟩
  have hC : chunk_document tok cfg text md =
      (numbered 0 (window tok cfg.chunk_size cfg.chunk_overlap
        (recursiveSplit tok cfg.chunk_size cfg.separators text))).map (fun p =>
        { text := p.2
          chunk_id := p.1
          token_count := tok p.2
          char_count := p.2.length
          metadata := mergeMeta md p.1 (window tok cfg.chunk_size cfg.chunk_overlap
            (recursiveSplit tok cfg.chunk_size cfg.separators text)).length }) := by
    unfold chunk_document
    rw [if_neg (by simp [hws])]
  have hn : i < (numbered 0 (window tok cfg.chunk_size cfg.chunk_overlap
      (recursiveSplit tok cfg.chunk_size cfg.separators text))).length := by
    rwa [numbered_length]
  rw [List.get_of_eq hC, List.get_map, numbered_get 0 _ i hn hW]
  simp

/-- C2: the chunk ids are 0, 1, …, n-1 in output order; each chunk's
metadata maps chunk_index to its chunk_id and total_chunks to the output
length, these two keys overwriting any same-named caller-supplied keys, while
every other key is read from the caller's metadata unchanged. -/
theorem c2_ids_and_metadata (tok : Text → Nat) (cfg : ChunkerCfg) (text : Text) (md : Metadata)
    (i : Nat) (h : i < (chunk_document tok cfg text md).length) :
    ((chunk_document tok cfg text md).get ⟨i, h⟩).chunk_id = i ∧
    ((chunk_document tok cfg text md).get ⟨i, h⟩).metadata "chunk_index" =
      some (MetaVal.num i) ∧
    ((chunk_document tok cfg text md).get ⟨i, h⟩).metadata "total_chunks" =
      some (MetaVal.num (chunk_document tok cfg text md).length) ∧
    ∀ k : String, k ≠ "chunk_index" → k ≠ "total_chunks" →
      ((chunk_document tok cfg text md).get ⟨i, h⟩).metadata k = md k := by
  by_cases hws : text.all isPyWS
  · exfalso
    rw [chunk_document, if_pos hws] at h
    exact Nat.not_lt_zero i h
  · have hws' : text.all isPyWS = false := by simpa using hws
    rcases chunk_document_get_eq tok cfg text md hws' i h with ⟨hW, hg⟩
    rw [hg]
    refine ⟨rfl, by simp [mergeMeta], ?_, ?_⟩
    · rw [chunk_document_length tok cfg text md hws']
      simp [mergeMeta]
    · intro k hk1 hk2
      simp [mergeMeta, hk1, hk2]

/-- C2 witness: a two-chunk run where chunk 0 carries chunk_index 0 and
total_chunks 2, and a caller key survives while a clashing chunk_index key is
overwritten. -/
theorem c2_ids_and_metadata_witness :
    0 < (chunk_document (fun t : Text => t.length) ⟨10, 5, [[' ']]⟩
        ['a', 'a', 'a', 'a', 'a', 'a', 'a', ' ', 'b', 'b', 'b', 'b', 'b', 'b', 'b']
        (fun k => if k = "source" then some (MetaVal.str "doc.txt")
          else if k = "chunk_index" then some (MetaVal.num 99) else none)).length ∧
    (((chunk_document (fun t : Text => t.length) ⟨10, 5, [[' ']]⟩
        ['a', 'a', 'a', 'a', 'a', 'a', 'a', ' ', 'b', 'b', 'b', 'b', 'b', 'b', 'b']
        (fun k => if k = "source" then some (MetaVal.str "doc.txt")
          else if k = "chunk_index" then some (MetaVal.num 99) else none)).get
        ⟨0, by decide⟩).chunk_id = 0 ∧
      ((chunk_document (fun t : Text => t.length) ⟨10, 5, [[' ']]⟩
        ['a', 'a', 'a', 'a', 'a', 'a', 'a', ' ', 'b', 'b', 'b', 'b', 'b', 'b', 'b']
        (fun k => if k = "source" then some (MetaVal.str "doc.txt")
          else if k = "chunk_index" then some (MetaVal.num 99) else none)).get
        ⟨0, by decide⟩).metadata "chunk_index" = some (MetaVal.num 0) ∧
      ((chunk_document (fun t : Text => t.length) ⟨10, 5, [[' ']]⟩
        ['a', 'a', 'a', 'a', 'a', 'a', 'a', ' ', 'b', 'b', 'b', 'b', 'b', 'b', 'b']
        (fun k => if k = "source" then some (MetaVal.str "doc.txt")
          else if k = "chunk_index" then some (MetaVal.num 99) else none)).get
        ⟨0, by decide⟩).metadata "total_chunks" =
        some (MetaVal.num (chunk_document (fun t : Text => t.length) ⟨10, 5, [[' ']]⟩
          ['a', 'a', 'a', 'a', 'a', 'a', 'a', ' ', 'b', 'b', 'b', 'b', 'b', 'b', 'b']
          (fun k => if k = "source" then some (MetaVal.str "doc.txt")
            else if k = "chunk_index" then some (MetaVal.num 99) else none)).length) ∧
      ∀ k : String, k ≠ "chunk_index" → k ≠ "total_chunks" →
        ((chunk_document (fun t : Text => t.length) ⟨10, 5, [[' ']]⟩
          ['a', 'a', 'a', 'a', 'a', 'a', 'a', ' ', 'b', 'b', 'b', 'b', 'b', 'b', 'b']
          (fun k' => if k' = "source" then some (MetaVal.str "doc.txt")
            else if k' = "chunk_index" then some (MetaVal.num 99) else none)).get
          ⟨0, by decide⟩).metadata k =
          (if k = "source" then some (MetaVal.str "doc.txt")
            else if k = "chunk_index" then some (MetaVal.num 99) else none)) :=
  ⟨by decide, c2_ids_and_metadata (fun t : Text => t.length) ⟨10, 5, [[' ']]⟩
    ['a', 'a', 'a', 'a', 'a', 'a', 'a', ' ', 'b', 'b', 'b', 'b', 'b', 'b', 'b']
    (fun k => if k = "source" then some (MetaVal.str "doc.txt")
      else if k = "chunk_index" then some (MetaVal.num 99) else none) 0 (by decide)⟩

/-- C1: every produced chunk's token count is at most chunk_size, except a
chunk that is exactly one oversized splitter leaf (a span the splitter could
not cut within budget at any separator level), which is passed through whole.
The tokenizer hypotheses say: the empty text has no tokens, token counts are
subadditive under concatenation, and non-empty texts have at least one
token. -/
theorem c1_token_budget (tok : Text → Nat) (cfg : ChunkerCfg) (text : Text) (md : Metadata)
    (hnil : tok [] = 0) (hsub : ∀ a b : Text, tok (a ++ b) ≤ tok a + tok b)
    (hpos : ∀ s : Text, s ≠ [] → 1 ≤ tok s)
    (i : Nat) (h : i < (chunk_document tok cfg text md).length) :
    ((chunk_document tok cfg text md).get ⟨i, h⟩).token_count ≤ cfg.chunk_size ∨
    ∃ l ∈ recursiveSplit tok cfg.chunk_size cfg.separators text,
      ((chunk_document tok cfg text md).get ⟨i, h⟩).text = l ∧ cfg.chunk_size < tok l := by
  by_cases hws : text.all isPyWS
  · exfalso
    rw [chunk_document, if_pos hws] at h
    exact Nat.not_lt_zero i h
  · have hws' : text.all isPyWS = false := by simpa using hws
    rcases chunk_document_get_eq tok cfg text md hws' i h with ⟨hW, hg⟩
    rw [hg]
    have htne : text ≠ [] := by
      intro he
      rw [he] at hws'
      simp at hws'
    exact window_good tok cfg.chunk_size cfg.chunk_overlap
      (recursiveSplit tok cfg.chunk_size cfg.separators text) hnil hsub hpos
      (recursiveSplit_ne_nil tok cfg.chunk_size cfg.separators text htne)
      _ (List.get_mem _ i hW)

/-- C1 witness: a run with two within-budget chunks, checked at chunk 0, with
the tokenizer that counts one token per character. -/
theorem c1_token_budget_witness :
    0 < (chunk_document (fun t : Text => t.length) ⟨10, 5, [[' ']]⟩
        ['a', 'a', 'a', 'a', 'a', 'a', 'a', ' ', 'b', 'b', 'b', 'b', 'b', 'b', 'b']
        (fun _ => none)).length ∧
    (((chunk_document (fun t : Text => t.length) ⟨10, 5, [[' ']]⟩
        ['a', 'a', 'a', 'a', 'a', 'a', 'a', ' ', 'b', 'b', 'b', 'b', 'b', 'b', 'b']
        (fun _ => none)).get ⟨0, by decide⟩).token_count ≤ 10 ∨
      ∃ l ∈ recursiveSplit (fun t : Text => t.length) 10 [[' ']]
          ['a', 'a', 'a', 'a', 'a', 'a', 'a', ' ', 'b', 'b', 'b', 'b', 'b', 'b', 'b'],
        ((chunk_document (fun t : Text => t.length) ⟨10, 5, [[' ']]⟩
          ['a', 'a', 'a', 'a', 'a', 'a', 'a', ' ', 'b', 'b', 'b', 'b', 'b', 'b', 'b']
          (fun _ => none)).get ⟨0, by decide⟩).text = l ∧ 10 < l.length) :=
  ⟨by decide, c1_token_budget (fun t : Text => t.length) ⟨10, 5, [[' ']]⟩
    ['a', 'a', 'a', 'a', 'a', 'a', 'a', ' ', 'b', 'b', 'b', 'b', 'b', 'b', 'b']
    (fun _ => none) rfl (fun a b => Nat.le_of_eq (List.length_append a b))
    (fun s hs => List.length_pos.mpr hs) 0 (by decide)⟩

/-- C7: no content is dropped — concatenating the non-carried parts of the
windowed chunks reconstructs the input text exactly, and the produced chunk
texts are exactly the windowed chunks, each the carried overlap followed by
its new content (so removing the carried duplication from each chunk and
concatenating yields the input). -/
theorem c7_reconstruction (tok : Text → Nat) (cfg : ChunkerCfg) (text : Text) (md : Metadata)
    (hws : text.all isPyWS = false) :
    joinAll (joinAll ((windowPairs tok cfg.chunk_size cfg.chunk_overlap
      (recursiveSplit tok cfg.chunk_size cfg.separators text)).map (fun p => p.2))) = text ∧
    (chunk_document tok cfg text md).map Chunk.text =
      (windowPairs tok cfg.chunk_size cfg.chunk_overlap
        (recursiveSplit tok cfg.chunk_size cfg.separators text)).map
        (fun p => joinAll (p.1 ++ p.2)) := by
  constructor
  · rw [windowPairs_snd_joinAll, recursiveSplit_joinAll]
  · exact chunk_document_texts tok cfg text md hws

/-- C7 witness: exact reconstruction on a two-chunk input. -/
theorem c7_reconstruction_witness :
    (['a', 'a', 'a', 'a', 'a', 'a', 'a', ' ', 'b', 'b', 'b', 'b', 'b', 'b', 'b'] : Text).all
        isPyWS = false ∧
    (joinAll (joinAll ((windowPairs (fun t : Text => t.length) 10 5
        (recursiveSplit (fun t : Text => t.length) 10 [[' ']]
          ['a', 'a', 'a', 'a', 'a', 'a', 'a', ' ', 'b', 'b', 'b', 'b', 'b', 'b', 'b'])).map
        (fun p => p.2))) =
        ['a', 'a', 'a', 'a', 'a', 'a', 'a', ' ', 'b', 'b', 'b', 'b', 'b', 'b', 'b'] ∧
      (chunk_document (fun t : Text => t.length) ⟨10, 5, [[' ']]⟩
        ['a', 'a', 'a', 'a', 'a', 'a', 'a', ' ', 'b', 'b', 'b', 'b', 'b', 'b', 'b']
        (fun _ => none)).map Chunk.text =
        (windowPairs (fun t : Text => t.length) 10 5
          (recursiveSplit (fun t : Text => t.length) 10 [[' ']]
            ['a', 'a', 'a', 'a', 'a', 'a', 'a', ' ', 'b', 'b', 'b', 'b', 'b', 'b', 'b'])).map
          (fun p => joinAll (p.1 ++ p.2))) :=
  ⟨by decide, c7_reconstruction (fun t : Text => t.length) ⟨10, 5, [[' ']]⟩
    ['a', 'a', 'a', 'a', 'a', 'a', 'a', ' ', 'b', 'b', 'b', 'b', 'b', 'b', 'b']
    (fun _ => none) (by decide)⟩

/-- C3 counterexample: with chunk_size 10, chunk_overlap 5 and the one-token-
per-character tokenizer, the input "aaaaaaa bbbbbbb" yields two chunks of 8
and 7 tokens, neither oversized; yet they share no boundary content at all,
so they do not share at least min(chunk_overlap, token_count of chunk 0) = 5
tokens as the claim requires. -/
theorem c3_counterexample :
    (chunk_document (fun t : Text => t.length) ⟨10, 5, [[' ']]⟩
        ['a', 'a', 'a', 'a', 'a', 'a', 'a', ' ', 'b', 'b', 'b', 'b', 'b', 'b', 'b']
        (fun _ => none)).map Chunk.token_count = [8, 7] ∧
    (chunk_document (fun t : Text => t.length) ⟨10, 5, [[' ']]⟩
        ['a', 'a', 'a', 'a', 'a', 'a', 'a', ' ', 'b', 'b', 'b', 'b', 'b', 'b', 'b']
        (fun _ => none)).map Chunk.text =
      [['a', 'a', 'a', 'a', 'a', 'a', 'a', ' '], ['b', 'b', 'b', 'b', 'b', 'b', 'b']] ∧
    ((8 : Nat) ≤ 10 ∧ (7 : Nat) ≤ 10) ∧ (0 : Nat) < 5 ∧
    sharesTailTokens (fun t : Text => t.length)
      ['a', 'a', 'a', 'a', 'a', 'a', 'a', ' '] ['b', 'b', 'b', 'b', 'b', 'b', 'b']
      (Nat.min 5 8) = false :=
  ⟨by decide, by decide, ⟨by decide, by decide⟩, by decide, by decide⟩

/-- C3 amended: adjacent chunks need not share min(chunk_overlap, previous
chunk's tokens) tokens; instead, each chunk after the first begins with the
whole-leaf tail retained from the previous chunk by the windower — a suffix
of the previous chunk's text whose token count is at most chunk_overlap
(best-effort, possibly zero) — followed by its new leaves; and the produced
chunk texts are exactly these windowed chunks. -/
theorem c3_amended_overlap (tok : Text → Nat) (cfg : ChunkerCfg) (text : Text) (md : Metadata)
    (hnil : tok [] = 0) (hsub : ∀ a b : Text, tok (a ++ b) ≤ tok a + tok b)
    (i : Nat)
    (h : i + 1 < (windowPairs tok cfg.chunk_size cfg.chunk_overlap
      (recursiveSplit tok cfg.chunk_size cfg.separators text)).length) :
    ∃ d rest,
      ((windowPairs tok cfg.chunk_size cfg.chunk_overlap
        (recursiveSplit tok cfg.chunk_size cfg.separators text)).get ⟨i + 1, h⟩).2 =
        d :: rest ∧
      ((windowPairs tok cfg.chunk_size cfg.chunk_overlap
        (recursiveSplit tok cfg.chunk_size cfg.separators text)).get ⟨i + 1, h⟩).1 =
        popLeaves tok cfg.chunk_size cfg.chunk_overlap (tok d)
          (((windowPairs tok cfg.chunk_size cfg.chunk_overlap
            (recursiveSplit tok cfg.chunk_size cfg.separators text)).get
            ⟨i, Nat.lt_of_succ_lt h⟩).1 ++
          ((windowPairs tok cfg.chunk_size cfg.chunk_overlap
            (recursiveSplit tok cfg.chunk_size cfg.separators text)).get
            ⟨i, Nat.lt_of_succ_lt h⟩).2) ∧
      (∃ pre, joinAll (((windowPairs tok cfg.chunk_size cfg.chunk_overlap
            (recursiveSplit tok cfg.chunk_size cfg.separators text)).get
            ⟨i, Nat.lt_of_succ_lt h⟩).1 ++
          ((windowPairs tok cfg.chunk_size cfg.chunk_overlap
            (recursiveSplit tok cfg.chunk_size cfg.separators text)).get
            ⟨i, Nat.lt_of_succ_lt h⟩).2) =
          pre ++ joinAll (((windowPairs tok cfg.chunk_size cfg.chunk_overlap
            (recursiveSplit tok cfg.chunk_size cfg.separators text)).get ⟨i + 1, h⟩).1)) ∧
      tok (joinAll (((windowPairs tok cfg.chunk_size cfg.chunk_overlap
          (recursiveSplit tok cfg.chunk_size cfg.separators text)).get ⟨i + 1, h⟩).1)) ≤
        cfg.chunk_overlap ∧
      (text.all isPyWS = false →
        (chunk_document tok cfg text md).map Chunk.text =
          (windowPairs tok cfg.chunk_size cfg.chunk_overlap
            (recursiveSplit tok cfg.chunk_size cfg.separators text)).map
            (fun p => joinAll (p.1 ++ p.2))) := by
  revert h
  cases hL : recursiveSplit tok cfg.chunk_size cfg.separators text with
  | nil =>
    intro h
    exfalso
    simp [windowPairs] at h
  | cons d0 ds0 =>
    intro h
    simp only [windowPairs] at h ⊢
    have hlen : i < (windowAux tok cfg.chunk_size cfg.chunk_overlap [] [d0] ds0).length - 1 := by
      omega
    obtain ⟨d, rest, h2, h1⟩ := List.chain'_iff_get.mp
      (windowAux_chain tok cfg.chunk_size cfg.chunk_overlap ds0 [] [d0]) i hlen
    have h2' : ((windowAux tok cfg.chunk_size cfg.chunk_overlap [] [d0] ds0).get
        ⟨i + 1, h⟩).2 = d :: rest := h2
    have h1' : ((windowAux tok cfg.chunk_size cfg.chunk_overlap [] [d0] ds0).get
        ⟨i + 1, h⟩).1 =
        popLeaves tok cfg.chunk_size cfg.chunk_overlap (tok d)
          (((windowAux tok cfg.chunk_size cfg.chunk_overlap [] [d0] ds0).get
            ⟨i, Nat.lt_of_succ_lt h⟩).1 ++
          ((windowAux tok cfg.chunk_size cfg.chunk_overlap [] [d0] ds0).get
            ⟨i, Nat.lt_of_succ_lt h⟩).2) := h1
    refine ⟨d, rest, h2', h1', ?_, ?_, ?_⟩
    · obtain ⟨pre, hpre⟩ := popLeaves_suffix tok cfg.chunk_size cfg.chunk_overlap (tok d)
        (((windowAux tok cfg.chunk_size cfg.chunk_overlap [] [d0] ds0).get
          ⟨i, Nat.lt_of_succ_lt h⟩).1 ++
        ((windowAux tok cfg.chunk_size cfg.chunk_overlap [] [d0] ds0).get
          ⟨i, Nat.lt_of_succ_lt h⟩).2)
      refine ⟨joinAll pre, ?_⟩
      rw [h1']
      conv_lhs => rw [hpre]
      rw [joinAll_append]
    · rw [h1']
      exact le_trans (tok_joinAll_le tok hnil hsub _) (popLeaves_sum_le tok _ _ _ _)
    · intro hws
      have hT := chunk_document_texts tok cfg text md hws
      rw [hL] at hT
      simpa [windowPairs] using hT

/-- C3 amended witness: on the two-chunk run, chunk 1 starts from the empty
retained overlap (the previous chunk's only leaf exceeds the overlap budget),
which is a suffix of chunk 0 of at most 5 tokens. -/
theorem c3_amended_overlap_witness :
    0 + 1 < (windowPairs (fun t : Text => t.length) 10 5
      (recursiveSplit (fun t : Text => t.length) 10 [[' ']]
        ['a', 'a', 'a', 'a', 'a', 'a', 'a', ' ', 'b', 'b', 'b', 'b', 'b', 'b', 'b'])).length ∧
    ∃ d rest,
      ((windowPairs (fun t : Text => t.length) 10 5
        (recursiveSplit (fun t : Text => t.length) 10 [[' ']]
          ['a', 'a', 'a', 'a', 'a', 'a', 'a', ' ', 'b', 'b', 'b', 'b', 'b', 'b', 'b'])).get
        ⟨0 + 1, by decide⟩).2 = d :: rest ∧
      ((windowPairs (fun t : Text => t.length) 10 5
        (recursiveSplit (fun t : Text => t.length) 10 [[' ']]
          ['a', 'a', 'a', 'a', 'a', 'a', 'a', ' ', 'b', 'b', 'b', 'b', 'b', 'b', 'b'])).get
        ⟨0 + 1, by decide⟩).1 =
        popLeaves (fun t : Text => t.length) 10 5 d.length
          (((windowPairs (fun t : Text => t.length) 10 5
            (recursiveSplit (fun t : Text => t.length) 10 [[' ']]
              ['a', 'a', 'a', 'a', 'a', 'a', 'a', ' ', 'b', 'b', 'b', 'b', 'b', 'b', 'b'])).get
            ⟨0, by decide⟩).1 ++
          ((windowPairs (fun t : Text => t.length) 10 5
            (recursiveSplit (fun t : Text => t.length) 10 [[' ']]
              ['a', 'a', 'a', 'a', 'a', 'a', 'a', ' ', 'b', 'b', 'b', 'b', 'b', 'b', 'b'])).get
            ⟨0, by decide⟩).2) ∧
      (∃ pre, joinAll (((windowPairs (fun t : Text => t.length) 10 5
            (recursiveSplit (fun t : Text => t.length) 10 [[' ']]
              ['a', 'a', 'a', 'a', 'a', 'a', 'a', ' ', 'b', 'b', 'b', 'b', 'b', 'b', 'b'])).get
            ⟨0, by decide⟩).1 ++
          ((windowPairs (fun t : Text => t.length) 10 5
            (recursiveSplit (fun t : Text => t.length) 10 [[' ']]
              ['a', 'a', 'a', 'a', 'a', 'a', 'a', ' ', 'b', 'b', 'b', 'b', 'b', 'b', 'b'])).get
            ⟨0, by decide⟩).2) =
          pre ++ joinAll (((windowPairs (fun t : Text => t.length) 10 5
            (recursiveSplit (fun t : Text => t.length) 10 [[' ']]
              ['a', 'a', 'a', 'a', 'a', 'a', 'a', ' ', 'b', 'b', 'b', 'b', 'b', 'b', 'b'])).get
            ⟨0 + 1, by decide⟩).1)) ∧
      (joinAll (((windowPairs (fun t : Text => t.length) 10 5
          (recursiveSplit (fun t : Text => t.length) 10 [[' ']]
            ['a', 'a', 'a', 'a', 'a', 'a', 'a', ' ', 'b', 'b', 'b', 'b', 'b', 'b', 'b'])).get
          ⟨0 + 1, by decide⟩).1)).length ≤ 5 ∧
      ((['a', 'a', 'a', 'a', 'a', 'a', 'a', ' ', 'b', 'b', 'b', 'b', 'b', 'b', 'b'] : Text).all
          isPyWS = false →
        (chunk_document (fun t : Text => t.length) ⟨10, 5, [[' ']]⟩
          ['a', 'a', 'a', 'a', 'a', 'a', 'a', ' ', 'b', 'b', 'b', 'b', 'b', 'b', 'b']
          (fun _ => none)).map Chunk.text =
          (windowPairs (fun t : Text => t.length) 10 5
            (recursiveSplit (fun t : Text => t.length) 10 [[' ']]
              ['a', 'a', 'a', 'a', 'a', 'a', 'a', ' ', 'b', 'b', 'b', 'b', 'b', 'b', 'b'])).map
            (fun p => joinAll (p.1 ++ p.2))) :=
  ⟨by decide, c3_amended_overlap (fun t : Text => t.length) ⟨10, 5, [[' ']]⟩
    ['a', 'a', 'a', 'a', 'a', 'a', 'a', ' ', 'b', 'b', 'b', 'b', 'b', 'b', 'b']
    (fun _ => none) rfl (fun a b => Nat.le_of_eq (List.length_append a b)) 0 (by decide)⟩

end RagChunker
